import Mathlib

/-!
Verification development for the qq-x11-guard watchdog (`src/main.rs`).

The Rust program is embedded shallowly: all OS interaction (the `/proc`
scans, the `ss` subprocess, inotify syscalls, signals, process launches,
clocks) is abstracted into explicit environment records, and each Rust
function becomes a pure Lean function over those records.  Side effects
(signals sent, commands launched, log lines emitted, watch syscalls
performed) are reified as explicit effect traces so that frame properties
can be stated.
-/

namespace X11Guard

/-- Environment seen by the socket correlator: `socketIds pid` is the set of
socket inode identifiers held open by process `pid` (the result of the
`/proc/<pid>/fd` scan `socket_inodes_for_pid`), and `peerIds path` is the set
of peer inodes of connections whose source is the X11 socket at `path`
(the result of `peer_inodes_on_x11_socket`). -/
structure SysEnv where
  socketIds : Int → Finset String
  peerIds : String → Finset String

/-- Translation of `count_app_x11_connections` (src/main.rs:272-285),
instrumented: the first component is the returned count, the second is the
number of per-pid descriptor scans (`socket_inodes_for_pid` calls) that the
function performed. -/
def count_app_x11_connections (env : SysEnv) (app_pids : List Int)
    (socket_path : String) : Nat × Nat :=
  if app_pids.isEmpty then (0, 0)
  else
    let x11_peer_inodes := env.peerIds socket_path
    if x11_peer_inodes = ∅ then (0, 0)
    else
      let app_socket_inodes :=
        app_pids.foldl (fun acc pid => acc ∪ env.socketIds pid) (∅ : Finset String)
      ((app_socket_inodes ∩ x11_peer_inodes).card, app_pids.length)

/-- The union accumulated by the `for pid in app_pids` loop of
`count_app_x11_connections` is the indexed union of the per-pid sets. -/
theorem foldl_union_eq_biUnion (env : SysEnv) (pids : List Int) (acc : Finset String) :
    pids.foldl (fun acc pid => acc ∪ env.socketIds pid) acc
      = acc ∪ pids.toFinset.biUnion env.socketIds := by
  induction pids generalizing acc with
  | nil => simp
  | cons p ps ih =>
      simp only [List.foldl_cons, ih, List.toFinset_cons, Finset.biUnion_insert]
      rw [Finset.union_assoc, Finset.union_left_comm]

/-- Rust `peer.chars().all(|char| char.is_ascii_digit())`, over the string's
character list. -/
def allDigits (peer : String) : Bool := peer.data.all Char.isDigit

/-- Scanning structure of `extract_peer_inode` (src/main.rs:252-270), written
as structural recursion over the token list: at each position `i`, a token
equal to the plain or abstract (`@`-prefixed) source address is inspected;
if fewer than three tokens follow (`index + 3 >= tokens.len()`) or the token
two later (`rest.getD 1`) is not the wildcard `"*"` the whole scan aborts
with `none`; if the token three later (`rest.getD 2`) is all digits it is
returned; otherwise the scan continues with the next position. -/
def extractGo (sp wa : String) : List String → Option String
  | [] => none
  | t :: rest =>
      if t = sp ∨ t = wa then
        if 3 ≤ rest.length then
          if rest.getD 1 "" = "*" then
            if allDigits (rest.getD 2 "") then some (rest.getD 2 "")
            else extractGo sp wa rest
          else none
        else none
      else extractGo sp wa rest

/-- Translation of `extract_peer_inode` (src/main.rs:252-270). -/
def extract_peer_inode (tokens : List String) (socket_path : String) : Option String :=
  extractGo socket_path ("@" ++ socket_path) tokens

/-- Position `i` of `tokens` holds the queried address (plain or abstract). -/
def AddrAt (tokens : List String) (sp : String) (i : Nat) : Prop :=
  tokens.getD i "" = sp ∨ tokens.getD i "" = "@" ++ sp

instance (tokens : List String) (sp : String) (i : Nat) :
    Decidable (AddrAt tokens sp i) := by
  unfold AddrAt; infer_instance

/-- Position `i` of `tokens` is a full peer row: the address matches, the
token two later is the wildcard `"*"`, and the token three later exists and is
all ASCII digits. -/
def PeerRowAt (tokens : List String) (sp : String) (i : Nat) : Prop :=
  i + 3 < tokens.length ∧ AddrAt tokens sp i ∧
    tokens.getD (i + 2) "" = "*" ∧ allDigits (tokens.getD (i + 3) "")

instance (tokens : List String) (sp : String) (i : Nat) :
    Decidable (PeerRowAt tokens sp i) := by
  unfold PeerRowAt; infer_instance

theorem addrAt_cons_succ (t : String) (rest : List String) (sp : String) (i : Nat) :
    AddrAt (t :: rest) sp (i + 1) ↔ AddrAt rest sp i := by
  unfold AddrAt
  rw [List.getD_cons_succ]

theorem addrAt_cons_zero (t : String) (rest : List String) (sp : String) :
    AddrAt (t :: rest) sp 0 ↔ (t = sp ∨ t = "@" ++ sp) := by
  unfold AddrAt
  rw [List.getD_cons_zero]

theorem peerRowAt_cons_succ (t : String) (rest : List String) (sp : String) (i : Nat) :
    PeerRowAt (t :: rest) sp (i + 1) ↔ PeerRowAt rest sp i := by
  have e1 : i + 1 + 2 = (i + 2) + 1 := by omega
  have e2 : i + 1 + 3 = (i + 3) + 1 := by omega
  unfold PeerRowAt
  rw [e1, e2, List.getD_cons_succ, List.getD_cons_succ, addrAt_cons_succ, List.length_cons]
  constructor
  · rintro ⟨h1, h2, h3, h4⟩
    exact ⟨by omega, h2, h3, h4⟩
  · rintro ⟨h1, h2, h3, h4⟩
    exact ⟨by omega, h2, h3, h4⟩

/-- Soundness of the scan: a returned peer token really sits three positions
after an address match whose wildcard column is present. -/
theorem extractGo_sound (sp : String) (l : List String) (p : String)
    (h : extractGo sp ("@" ++ sp) l = some p) :
    ∃ i, PeerRowAt l sp i ∧ p = l.getD (i + 3) "" := by
  induction l with
  | nil => simp [extractGo] at h
  | cons t rest ih =>
      rw [extractGo] at h
      by_cases hm : t = sp ∨ t = "@" ++ sp
      · rw [if_pos hm] at h
        by_cases h3 : 3 ≤ rest.length
        · rw [if_pos h3] at h
          by_cases hw : rest.getD 1 "" = "*"
          · rw [if_pos hw] at h
            by_cases hd : allDigits (rest.getD 2 "")
            · rw [if_pos hd] at h
              refine ⟨0, ⟨?_, ?_, ?_, ?_⟩, ?_⟩
              · simp only [List.length_cons]; omega
              · rw [addrAt_cons_zero]; exact hm
              · exact hw
              · exact hd
              · exact (Option.some.inj h).symm
            · rw [if_neg hd] at h
              obtain ⟨i, hrow, hp⟩ := ih h
              refine ⟨i + 1, (peerRowAt_cons_succ ..).2 hrow, ?_⟩
              have e : i + 1 + 3 = (i + 3) + 1 := by omega
              rw [e, List.getD_cons_succ]
              exact hp
          · rw [if_neg hw] at h
            simp at h
        · rw [if_neg h3] at h
          simp at h
      · rw [if_neg hm] at h
        obtain ⟨i, hrow, hp⟩ := ih h
        refine ⟨i + 1, (peerRowAt_cons_succ ..).2 hrow, ?_⟩
        have e : i + 1 + 3 = (i + 3) + 1 := by omega
        rw [e, List.getD_cons_succ]
        exact hp

/-- If position `k` is a full peer row and no earlier position holds the
queried address, the scan returns the peer token of row `k`. -/
theorem extractGo_first_match (sp : String) (l : List String) (k : Nat)
    (hrow : PeerRowAt l sp k) (hfirst : ∀ j, j < k → ¬ AddrAt l sp j) :
    extractGo sp ("@" ++ sp) l = some (l.getD (k + 3) "") := by
  induction l generalizing k with
  | nil =>
      exfalso
      have := hrow.1
      simp only [List.length_nil] at this
      omega
  | cons t rest ih =>
      cases k with
      | zero =>
          obtain ⟨hlen, haddr, hwild, hdig⟩ := hrow
          rw [addrAt_cons_zero] at haddr
          simp only [List.length_cons] at hlen
          have h3 : 3 ≤ rest.length := by omega
          have hw : rest.getD 1 "" = "*" := hwild
          have hd : allDigits (rest.getD 2 "") := hdig
          rw [extractGo, if_pos haddr, if_pos h3, if_pos hw, if_pos hd]
          rfl
      | succ k =>
          have hm : ¬ (t = sp ∨ t = "@" ++ sp) := by
            have := hfirst 0 (Nat.succ_pos k)
            rw [addrAt_cons_zero] at this
            exact this
          rw [extractGo, if_neg hm]
          have hrow' := (peerRowAt_cons_succ ..).1 hrow
          have hfirst' : ∀ j, j < k → ¬ AddrAt rest sp j := by
            intro j hj hcon
            exact hfirst (j + 1) (by omega) ((addrAt_cons_succ ..).2 hcon)
          have e : k + 1 + 3 = (k + 3) + 1 := by omega
          rw [e, List.getD_cons_succ]
          exact ih k hrow' hfirst'

/-- C1: `count_app_x11_connections` returns 0 and performs no per-pid
descriptor scan when the pid list is empty or when the X11 peer set is empty;
otherwise it returns the cardinality of the intersection of the union of the
per-pid socket-identifier sets with the peer set (scanning each listed pid
once). -/
theorem c1_count_connections_spec (env : SysEnv) (pids : List Int) (path : String) :
    (pids = [] → count_app_x11_connections env pids path = (0, 0)) ∧
    (env.peerIds path = ∅ → count_app_x11_connections env pids path = (0, 0)) ∧
    (pids ≠ [] → env.peerIds path ≠ ∅ →
      count_app_x11_connections env pids path =
        ((pids.toFinset.biUnion env.socketIds ∩ env.peerIds path).card, pids.length)) := by
  refine ⟨?_, ?_, ?_⟩
  · intro h
    subst h
    rfl
  · intro h
    simp [count_app_x11_connections, h]
  · intro h1 h2
    have h1' : pids.isEmpty = false := by
      simpa [List.isEmpty_iff] using h1
    simp only [count_app_x11_connections, h1', Bool.false_eq_true, if_false, if_neg h2]
    rw [foldl_union_eq_biUnion, Finset.empty_union]

/-- Worked-example environment of C1: pid 101 holds socket id 55, pid 102
holds 56 and 99, and the X11 peers are 55, 56 and 57. -/
def exampleSys : SysEnv where
  socketIds := fun p => if p = 101 then {"55"} else if p = 102 then {"56", "99"} else ∅
  peerIds := fun _ => {"55", "56", "57"}

/-- Witness for C1 at the worked example: two connections are counted with
one descriptor scan per pid, and an empty pid list yields no work at all. -/
theorem c1_count_connections_spec_witness :
    count_app_x11_connections exampleSys [101, 102] "/tmp/.X11-unix/X0" = (2, 2) ∧
    count_app_x11_connections exampleSys [] "/tmp/.X11-unix/X0" = (0, 0) := by
  constructor
  · rw [(c1_count_connections_spec exampleSys [101, 102] "/tmp/.X11-unix/X0").2.2
      (by decide) (by decide)]
    decide
  · exact (c1_count_connections_spec exampleSys [] "/tmp/.X11-unix/X0").1 rfl

/-- C8 counterexample: the first token equal to the queried address (index 0)
fails the wildcard check, so the code aborts with `none` even though index 3
is a complete peer row whose digit token "7" the claim says must be
returned. -/
theorem c8_extract_claim_false :
    extract_peer_inode ["A", "x", "y", "A", "b", "*", "7"] "A" = none ∧
    PeerRowAt ["A", "x", "y", "A", "b", "*", "7"] "A" 3 := by
  constructor
  · rfl
  · decide

/-- C8 amended: the scan runs left to right; a returned token always is the
all-digit token three positions after some address match whose wildcard
column holds `"*"` (soundness); if no position forms such a row the result is
`none`; and when the first address match at position `k` is a complete row,
its digit token is returned.  (As the counterexample shows, a complete row is
not found when an earlier address match aborts the scan.) -/
theorem c8_extract_scan_spec (tokens : List String) (sp : String) :
    (∀ p, extract_peer_inode tokens sp = some p →
      ∃ i, PeerRowAt tokens sp i ∧ p = tokens.getD (i + 3) "") ∧
    ((∀ i, ¬ PeerRowAt tokens sp i) → extract_peer_inode tokens sp = none) ∧
    (∀ k, PeerRowAt tokens sp k → (∀ j, j < k → ¬ AddrAt tokens sp j) →
      extract_peer_inode tokens sp = some (tokens.getD (k + 3) "")) := by
  refine ⟨?_, ?_, ?_⟩
  · intro p h
    exact extractGo_sound sp tokens p h
  · intro hnone
    cases h : extract_peer_inode tokens sp with
    | none => rfl
    | some p =>
        obtain ⟨i, hrow, _⟩ := extractGo_sound sp tokens p h
        exact absurd hrow (hnone i)
  · intro k hrow hfirst
    exact extractGo_first_match sp tokens k hrow hfirst

/-- Witness for the amended C8: on a line whose first address match (the
abstract form) is a complete row, the digit token three positions later is
returned. -/
theorem c8_extract_scan_spec_witness :
    extract_peer_inode ["@A", "x", "*", "42"] "A" = some "42" :=
  (c8_extract_scan_spec ["@A", "x", "*", "42"] "A").2.2 0 (by decide)
    (fun j hj => absurd hj (Nat.not_lt_zero j))

/-- Watch-table syscall trace entries: `addCall pid` records an
`inotify_add_watch` invocation for `pid`'s descriptor directory, and
`rmCall wd` records an `inotify_rm_watch` invocation for watch descriptor
`wd`. -/
inductive WatchOp
  | addCall (pid : Int)
  | rmCall (wd : Int)
deriving DecidableEq, Repr

/-- State of `InotifyWatch` (src/main.rs:288-292): the two synchronized maps
`wd_to_pid` and `pid_to_wd`, plus the trace of watch syscalls performed.
The raw inotify file descriptor is abstracted away. -/
structure WatchState where
  wd_to_pid : AList (fun _ : Int => Int)
  pid_to_wd : AList (fun _ : Int => Int)
  ops : List WatchOp

/-- State after `InotifyWatch::new` (src/main.rs:295-305): both maps empty. -/
def initWatch : WatchState where
  wd_to_pid := ∅
  pid_to_wd := ∅
  ops := []

/-- Translation of `InotifyWatch::add_pid` (src/main.rs:307-325).  The OS
responses are explicit: `dirOk` is whether `/proc/<pid>/fd` is a directory,
and `wdRes` is the watch descriptor returned by `inotify_add_watch` (`none`
for a failed call, mirroring `wd < 0`).  The trace records the
`inotify_add_watch` invocation whenever the call is reached. -/
def add_pid (st : WatchState) (pid : Int) (dirOk : Bool) (wdRes : Option Int) :
    WatchState :=
  if (st.pid_to_wd.lookup pid).isSome then st
  else if dirOk then
    match wdRes with
    | none => { st with ops := st.ops ++ [WatchOp.addCall pid] }
    | some wd =>
        { wd_to_pid := st.wd_to_pid.insert wd pid
          pid_to_wd := st.pid_to_wd.insert pid wd
          ops := st.ops ++ [WatchOp.addCall pid] }
  else st

/-- Translation of `InotifyWatch::remove_pid` (src/main.rs:327-336): look up
and drop the pid's watch descriptor from both maps, then issue
`inotify_rm_watch`. -/
def remove_pid (st : WatchState) (pid : Int) : WatchState :=
  match st.pid_to_wd.lookup pid with
  | none => st
  | some wd =>
      { wd_to_pid := st.wd_to_pid.erase wd
        pid_to_wd := st.pid_to_wd.erase pid
        ops := st.ops ++ [WatchOp.rmCall wd] }

/-- Pids removed by `sync_pids`: watched ones absent from the current list
(the `existing.difference(&current)` iteration). -/
def syncRemovals (st : WatchState) (current_pids : List Int) : List Int :=
  st.pid_to_wd.keys.filter fun p => decide (p ∉ current_pids)

/-- Pids added by `sync_pids`: current ones not yet watched (the
`current.difference(&existing)` iteration; the `HashSet` dedups the input
list). -/
def syncAdds (st : WatchState) (current_pids : List Int) : List Int :=
  current_pids.dedup.filter fun p => decide (p ∉ st.pid_to_wd.keys)

/-- Translation of `InotifyWatch::sync_pids` (src/main.rs:338-348): remove
watches for pids no longer present, then add watches for new pids, both
differences taken against the entry snapshot of the table; `resp` gives the
OS response for each attempted add.  (Rust iterates the two hash-set
differences in unspecified order; the model fixes the list order.) -/
def sync_pids (st : WatchState) (current_pids : List Int)
    (resp : Int → Bool × Option Int) : WatchState :=
  let st1 := (syncRemovals st current_pids).foldl remove_pid st
  (syncAdds st current_pids).foldl (fun s p => add_pid s p (resp p).1 (resp p).2) st1

/-- Linux `IN_DELETE_SELF`. -/
def IN_DELETE_SELF : Nat := 1024

/-- Linux `IN_MOVE_SELF`. -/
def IN_MOVE_SELF : Nat := 2048

/-- One parsed inotify event record: originating watch descriptor and event
mask. -/
structure RawEvent where
  wd : Int
  mask : Nat
deriving DecidableEq, Repr

/-- Processing of one inotify event inside the read loop of
`InotifyWatch::wait_for_events` (src/main.rs:397-407): `pid_opt` is looked up
first; an event whose watch descriptor is unknown is dropped in both arms; a
self-delete or self-move event evicts the pid from the watch table before
reporting it; any other event on a known watch just reports the pid. -/
def processEvent (acc : WatchState × List Int) (e : RawEvent) :
    WatchState × List Int :=
  match acc.1.wd_to_pid.lookup e.wd with
  | none => acc
  | some pid =>
      if e.mask &&& (IN_DELETE_SELF ||| IN_MOVE_SELF) ≠ 0 then
        (remove_pid acc.1 pid, acc.2 ++ [pid])
      else (acc.1, acc.2 ++ [pid])

/-- Outcome of the bounded `poll` call in `wait_for_events`. -/
inductive PollOutcome
  | pollFail
  | pollTimeout
  | pollReady
deriving DecidableEq, Repr

/-- Translation of `InotifyWatch::wait_for_events` (src/main.rs:350-411): a
failed poll propagates as an error; a timeout returns the unchanged state
and an empty pid list; otherwise the event records `evts` parsed from the
inotify reads are processed in order. -/
def wait_for_events (st : WatchState) (poll : PollOutcome)
    (evts : List RawEvent) : Except Unit (WatchState × List Int) :=
  match poll with
  | PollOutcome.pollFail => Except.error ()
  | PollOutcome.pollTimeout => Except.ok (st, [])
  | PollOutcome.pollReady => Except.ok (evts.foldl processEvent (st, []))

/-- Configuration record (src/main.rs:24-35); `log_tag` renders the Rust
field holding the log-line marker. -/
structure Config where
  app_name : String
  threshold : Nat
  display : String
  restart_cmd : String
  cooldown_seconds : Nat
  fallback_poll_seconds : Nat
  scan_interval_seconds : Nat
  dry_run : Bool
  log_tag : String
deriving DecidableEq, Repr

/-- Signals sent through `terminate_processes` (src/main.rs:425-431). -/
inductive Sig
  | sigterm
  | sigkill
deriving DecidableEq, Repr

/-- Log lines, abstracted to their message kind and payloads (timestamp and
formatting dropped). -/
inductive LogMsg
  | cooldownRemaining (remain : Nat)
  | targetNotFound
  | overThreshold (app : String) (count threshold : Nat)
  | dryRunNotice
  | restarted (cmd : String)
  | statusLine (app : String) (count threshold : Nat)
deriving DecidableEq, Repr

/-- Observable side effects of the restart controller and threshold check. -/
inductive Effect
  | signal (pids : List Int) (sig : Sig)
  | launch (cmd : String)
  | logMsg (m : LogMsg)
deriving DecidableEq, Repr

/-- Number of signal-delivery effects in a trace. -/
def signalCount (effs : List Effect) : Nat :=
  effs.countP fun e => match e with | Effect.signal _ _ => true | _ => false

/-- Number of process-launch effects in a trace. -/
def launchCount (effs : List Effect) : Nat :=
  effs.countP fun e => match e with | Effect.launch _ => true | _ => false

/-- An effect that is only a log line. -/
def isLogEffect : Effect → Bool
  | Effect.logMsg _ => true
  | _ => false

/-- State of `Guard` (src/main.rs:456-461); monotone-clock instants are
modelled as whole seconds. -/
structure Guard where
  config : Config
  socket_path : String
  inotify : WatchState
  last_restart : Option Nat

/-- OS responses consumed by one `Guard::restart_app` run: the process set
fetched for the target name (line 494), whether the graceful
`wait_until_gone` succeeded (line 515), and the process set re-read after
the graceful deadline (line 516). -/
structure RestartEnv where
  initialPids : List Int
  goneAfterTerm : Bool
  remainingPids : List Int

/-- Body of `Guard::restart_app` after the cooldown gate
(src/main.rs:494-527): fetch the target pids, bail out logging when none,
log the over-threshold notice, then either stop in dry-run mode or signal
SIGTERM to the fetched set, escalate SIGKILL to the re-read remaining set if
the graceful wait failed and that set is non-empty, launch the restart
command, and record `last_restart = now`. -/
def restartAppBody (g : Guard) (env : RestartEnv) (now : Nat) (x11_count : Nat) :
    Guard × List Effect :=
  let pids := env.initialPids
  if pids.isEmpty then (g, [Effect.logMsg LogMsg.targetNotFound])
  else
    let preLog := Effect.logMsg
      (LogMsg.overThreshold g.config.app_name x11_count g.config.threshold)
    if g.config.dry_run then
      ({ g with last_restart := some now },
       [preLog, Effect.logMsg LogMsg.dryRunNotice])
    else
      let killEffects :=
        if env.goneAfterTerm then []
        else if env.remainingPids.isEmpty then []
        else [Effect.signal env.remainingPids Sig.sigkill]
      ({ g with last_restart := some now },
        [preLog, Effect.signal pids Sig.sigterm] ++ killEffects ++
          [Effect.launch g.config.restart_cmd,
           Effect.logMsg (LogMsg.restarted g.config.restart_cmd)])

/-- Translation of `Guard::restart_app` (src/main.rs:481-528): the cooldown
gate (lines 482-492) short-circuits, logging the remaining seconds, when the
elapsed whole seconds since `last_restart` are below the cooldown; `now` is
the current monotone-clock reading in whole seconds. -/
def restart_app (g : Guard) (env : RestartEnv) (now : Nat) (x11_count : Nat) :
    Guard × List Effect :=
  match g.last_restart with
  | some last =>
      if now - last < g.config.cooldown_seconds then
        (g, [Effect.logMsg (LogMsg.cooldownRemaining
          (g.config.cooldown_seconds - (now - last)))])
      else restartAppBody g env now x11_count
  | none => restartAppBody g env now x11_count

/-- Boolean form of the cooldown gate of `restart_app`. -/
def cooldownBlocked (g : Guard) (now : Nat) : Bool :=
  match g.last_restart with
  | some last => decide (now - last < g.config.cooldown_seconds)
  | none => false

/-- An unblocked gate makes `restart_app` run its body. -/
theorem restart_app_of_open (g : Guard) (env : RestartEnv) (now x11_count : Nat)
    (hgate : cooldownBlocked g now = false) :
    restart_app g env now x11_count = restartAppBody g env now x11_count := by
  unfold restart_app
  unfold cooldownBlocked at hgate
  cases hl : g.last_restart with
  | none => rfl
  | some last =>
      rw [hl] at hgate
      simp only [decide_eq_false_iff_not] at hgate
      exact if_neg hgate

/-- OS responses consumed by one `Guard::check_threshold` run. -/
structure CheckEnv where
  findPids : List Int
  syncResp : Int → Bool × Option Int
  sys : SysEnv
  restartEnv : RestartEnv
  now : Nat

/-- Translation of `Guard::sync_watches` (src/main.rs:475-479). -/
def sync_watches (g : Guard) (env : CheckEnv) : Guard × List Int :=
  let pids := env.findPids
  ({ g with inotify := sync_pids g.inotify pids env.syncResp }, pids)

/-- Translation of `Guard::check_threshold` (src/main.rs:530-553): resolve
the pid set (either the supplied one, re-synced, or a fresh
`sync_watches`), return silently when it is empty, otherwise count X11
connections and either run `restart_app` (strictly over threshold) or, on
the fallback trigger only, emit a status log line. -/
def check_threshold (g : Guard) (env : CheckEnv) (trigger : String)
    (pidsArg : Option (List Int)) : Guard × List Effect :=
  let resolved :=
    match pidsArg with
    | some value =>
        ({ g with inotify := sync_pids g.inotify value env.syncResp }, value)
    | none => sync_watches g env
  let g1 := resolved.1
  let pids := resolved.2
  if pids.isEmpty then (g1, [])
  else
    let x11_count := (count_app_x11_connections env.sys pids g1.socket_path).1
    if g1.config.threshold < x11_count then
      restart_app g1 env.restartEnv env.now x11_count
    else if trigger = "fallback" then
      (g1, [Effect.logMsg (LogMsg.statusLine g1.config.app_name x11_count
        g1.config.threshold)])
    else (g1, [])

/-- Effect-trace shape of the non-dry-run restart body. -/
theorem restartAppBody_effects (g : Guard) (env : RestartEnv) (now x11_count : Nat)
    (hne : env.initialPids.isEmpty = false) (hdry : g.config.dry_run = false) :
    restartAppBody g env now x11_count =
      ({ g with last_restart := some now },
       [Effect.logMsg (LogMsg.overThreshold g.config.app_name x11_count g.config.threshold),
        Effect.signal env.initialPids Sig.sigterm] ++
       (if env.goneAfterTerm then []
        else if env.remainingPids.isEmpty then []
        else [Effect.signal env.remainingPids Sig.sigkill]) ++
       [Effect.launch g.config.restart_cmd,
        Effect.logMsg (LogMsg.restarted g.config.restart_cmd)]) := by
  simp only [restartAppBody, hne, hdry, Bool.false_eq_true, if_false]

/-- C2: with `last_restart = some t0` and elapsed whole seconds `now - t0`
strictly below the cooldown, `restart_app` performs no action beyond logging
the remaining cooldown (`cooldown - elapsed`) and leaves the state unchanged;
once the elapsed time reaches or exceeds the cooldown, the restart sequence
(the post-gate body) proceeds. -/
theorem c2_restart_cooldown_gate (g : Guard) (env : RestartEnv)
    (now x11_count t0 : Nat) (hlast : g.last_restart = some t0) :
    (now - t0 < g.config.cooldown_seconds →
      restart_app g env now x11_count =
        (g, [Effect.logMsg (LogMsg.cooldownRemaining
          (g.config.cooldown_seconds - (now - t0)))])) ∧
    (g.config.cooldown_seconds ≤ now - t0 →
      restart_app g env now x11_count = restartAppBody g env now x11_count) := by
  constructor
  · intro h
    unfold restart_app
    rw [hlast]
    exact if_pos h
  · intro h
    unfold restart_app
    rw [hlast]
    exact if_neg (not_lt.mpr h)

/-- C3: past the cooldown gate, not in dry-run, with a non-empty fetched pid
set: `last_restart` is set to `now` and the restart command is launched
exactly once, unconditionally; every forceful-kill signal targets exactly the
re-read remaining pid set; and when the graceful wait fails with a non-empty
re-read set, the trace is precisely log, SIGTERM to the originally fetched
set, SIGKILL to the remaining set, launch, log. -/
theorem c3_restart_escalation (g : Guard) (env : RestartEnv) (now x11_count : Nat)
    (hgate : cooldownBlocked g now = false)
    (hne : env.initialPids ≠ [])
    (hdry : g.config.dry_run = false) :
    (restart_app g env now x11_count).1.last_restart = some now ∧
    launchCount (restart_app g env now x11_count).2 = 1 ∧
    Effect.launch g.config.restart_cmd ∈ (restart_app g env now x11_count).2 ∧
    (∀ ps, Effect.signal ps Sig.sigkill ∈ (restart_app g env now x11_count).2 →
      ps = env.remainingPids) ∧
    (env.goneAfterTerm = false → env.remainingPids ≠ [] →
      (restart_app g env now x11_count).2 =
        [Effect.logMsg (LogMsg.overThreshold g.config.app_name x11_count
           g.config.threshold),
         Effect.signal env.initialPids Sig.sigterm,
         Effect.signal env.remainingPids Sig.sigkill,
         Effect.launch g.config.restart_cmd,
         Effect.logMsg (LogMsg.restarted g.config.restart_cmd)]) := by
  have hne' : env.initialPids.isEmpty = false := by
    simpa [List.isEmpty_iff] using hne
  rw [restart_app_of_open g env now x11_count hgate,
      restartAppBody_effects g env now x11_count hne' hdry]
  refine ⟨rfl, ?_, ?_, ?_, ?_⟩
  · by_cases h1 : env.goneAfterTerm = true
    · rw [if_pos h1]; rfl
    · rw [if_neg h1]
      by_cases h2 : env.remainingPids.isEmpty = true
      · rw [if_pos h2]; rfl
      · rw [if_neg h2]; rfl
  · by_cases h1 : env.goneAfterTerm = true
    · rw [if_pos h1]; simp
    · rw [if_neg h1]
      by_cases h2 : env.remainingPids.isEmpty = true
      · rw [if_pos h2]; simp
      · rw [if_neg h2]; simp
  · intro ps hmem
    by_cases h1 : env.goneAfterTerm = true
    · rw [if_pos h1] at hmem
      simp at hmem
    · rw [if_neg h1] at hmem
      by_cases h2 : env.remainingPids.isEmpty = true
      · rw [if_pos h2] at hmem
        simp at hmem
      · rw [if_neg h2] at hmem
        simpa using hmem
  · intro hgone hrem
    have hrem' : env.remainingPids.isEmpty = false := by
      simpa [List.isEmpty_iff] using hrem
    rw [hgone, hrem']
    rfl

/-- C4: past the cooldown gate, in dry-run mode, with a non-empty fetched
pid set: `last_restart` is updated to `now` but the trace holds only the two
log lines — zero signal deliveries, zero launches, and all other guard state
unchanged. -/
theorem c4_dry_run_frame (g : Guard) (env : RestartEnv) (now x11_count : Nat)
    (hgate : cooldownBlocked g now = false)
    (hne : env.initialPids ≠ [])
    (hdry : g.config.dry_run = true) :
    restart_app g env now x11_count =
      ({ g with last_restart := some now },
       [Effect.logMsg (LogMsg.overThreshold g.config.app_name x11_count
          g.config.threshold),
        Effect.logMsg LogMsg.dryRunNotice]) ∧
    signalCount (restart_app g env now x11_count).2 = 0 ∧
    launchCount (restart_app g env now x11_count).2 = 0 ∧
    ∀ e ∈ (restart_app g env now x11_count).2, isLogEffect e = true := by
  have hne' : env.initialPids.isEmpty = false := by
    simpa [List.isEmpty_iff] using hne
  have hmain : restart_app g env now x11_count =
      ({ g with last_restart := some now },
       [Effect.logMsg (LogMsg.overThreshold g.config.app_name x11_count
          g.config.threshold),
        Effect.logMsg LogMsg.dryRunNotice]) := by
    rw [restart_app_of_open g env now x11_count hgate]
    simp only [restartAppBody, hne', hdry, Bool.false_eq_true, if_false, if_true]
  refine ⟨hmain, ?_, ?_, ?_⟩
  · rw [hmain]
    rfl
  · rw [hmain]
    rfl
  · rw [hmain]
    simp [isLogEffect]

/-- C5: past the cooldown gate, when the re-fetched target pid set is empty,
`restart_app` only logs "target not found": the returned state (in
particular `last_restart`) is unchanged and no signal or launch occurs. -/
theorem c5_target_not_found (g : Guard) (env : RestartEnv) (now x11_count : Nat)
    (hgate : cooldownBlocked g now = false)
    (hemp : env.initialPids = []) :
    restart_app g env now x11_count = (g, [Effect.logMsg LogMsg.targetNotFound]) ∧
    (restart_app g env now x11_count).1.last_restart = g.last_restart ∧
    signalCount (restart_app g env now x11_count).2 = 0 ∧
    launchCount (restart_app g env now x11_count).2 = 0 := by
  have hmain : restart_app g env now x11_count =
      (g, [Effect.logMsg LogMsg.targetNotFound]) := by
    rw [restart_app_of_open g env now x11_count hgate]
    simp only [restartAppBody, hemp, List.isEmpty_nil, if_true]
  exact ⟨hmain, by rw [hmain], by rw [hmain]; rfl, by rw [hmain]; rfl⟩

/-- C7: a threshold check fired by the fallback poll that measures a
connection count not over the threshold emits exactly the informational
status log line carrying that count. -/
theorem c7_fallback_logs_status (g : Guard) (env : CheckEnv)
    (hne : env.findPids ≠ [])
    (hle : (count_app_x11_connections env.sys env.findPids g.socket_path).1 ≤
      g.config.threshold) :
    (check_threshold g env "fallback" none).2 =
      [Effect.logMsg (LogMsg.statusLine g.config.app_name
        (count_app_x11_connections env.sys env.findPids g.socket_path).1
        g.config.threshold)] := by
  have hne' : env.findPids.isEmpty = false := by
    simpa [List.isEmpty_iff] using hne
  simp only [check_threshold, sync_watches, hne', Bool.false_eq_true, if_false]
  rw [if_neg (not_lt.mpr hle)]
  simp

/-- Concrete configuration shared by witnesses. -/
def witnessConfig : Config where
  app_name := "qq"
  threshold := 10
  display := ":0"
  restart_cmd := "qq"
  cooldown_seconds := 120
  fallback_poll_seconds := 15
  scan_interval_seconds := 2
  dry_run := false
  log_tag := "guard"

/-- Guard whose last restart happened at instant 0. -/
def witnessGuard : Guard where
  config := witnessConfig
  socket_path := "/tmp/.X11-unix/X0"
  inotify := initWatch
  last_restart := some 0

/-- Restart environment: two target pids, of which pid 101 survives the
graceful wait. -/
def witnessRestartEnv : RestartEnv where
  initialPids := [101, 102]
  goneAfterTerm := false
  remainingPids := [101]

/-- Witness for C2 with cooldown 120 and `last_restart = some 0`: at instant
60 only the remaining ≈60 seconds are logged; at instant 121 the body
proceeds. -/
theorem c2_restart_cooldown_gate_witness :
    restart_app witnessGuard witnessRestartEnv 60 11 =
      (witnessGuard, [Effect.logMsg (LogMsg.cooldownRemaining 60)]) ∧
    restart_app witnessGuard witnessRestartEnv 121 11 =
      restartAppBody witnessGuard witnessRestartEnv 121 11 :=
  ⟨(c2_restart_cooldown_gate witnessGuard witnessRestartEnv 60 11 0 rfl).1 (by decide),
   (c2_restart_cooldown_gate witnessGuard witnessRestartEnv 121 11 0 rfl).2 (by decide)⟩

/-- Witness for C3: pid 101 survives the graceful wait, so SIGKILL goes to
`[101]` (the re-read set), not to the original `[101, 102]`. -/
theorem c3_restart_escalation_witness :
    (restart_app witnessGuard witnessRestartEnv 121 11).2 =
      [Effect.logMsg (LogMsg.overThreshold "qq" 11 10),
       Effect.signal [101, 102] Sig.sigterm,
       Effect.signal [101] Sig.sigkill,
       Effect.launch "qq",
       Effect.logMsg (LogMsg.restarted "qq")] :=
  (c3_restart_escalation witnessGuard witnessRestartEnv 121 11 (by decide)
    (by decide) rfl).2.2.2.2 rfl (by decide)

/-- Guard in dry-run mode with no previous restart. -/
def witnessGuardDry : Guard where
  config := { witnessConfig with dry_run := true }
  socket_path := "/tmp/.X11-unix/X0"
  inotify := initWatch
  last_restart := none

/-- Witness for C4: a dry-run breach at instant 500 records the restart time
but emits only log lines. -/
theorem c4_dry_run_frame_witness :
    restart_app witnessGuardDry witnessRestartEnv 500 11 =
      ({ witnessGuardDry with last_restart := some 500 },
       [Effect.logMsg (LogMsg.overThreshold "qq" 11 10),
        Effect.logMsg LogMsg.dryRunNotice]) ∧
    signalCount (restart_app witnessGuardDry witnessRestartEnv 500 11).2 = 0 ∧
    launchCount (restart_app witnessGuardDry witnessRestartEnv 500 11).2 = 0 ∧
    ∀ e ∈ (restart_app witnessGuardDry witnessRestartEnv 500 11).2,
      isLogEffect e = true :=
  c4_dry_run_frame witnessGuardDry witnessRestartEnv 500 11 rfl (by decide) rfl

/-- Restart environment in which the re-fetch finds no target process. -/
def witnessEmptyEnv : RestartEnv where
  initialPids := []
  goneAfterTerm := true
  remainingPids := []

/-- Witness for C5: the not-found path leaves `last_restart = some 0`
untouched and produces only the log line. -/
theorem c5_target_not_found_witness :
    restart_app witnessGuard witnessEmptyEnv 121 11 =
      (witnessGuard, [Effect.logMsg LogMsg.targetNotFound]) ∧
    (restart_app witnessGuard witnessEmptyEnv 121 11).1.last_restart = some 0 ∧
    signalCount (restart_app witnessGuard witnessEmptyEnv 121 11).2 = 0 ∧
    launchCount (restart_app witnessGuard witnessEmptyEnv 121 11).2 = 0 :=
  c5_target_not_found witnessGuard witnessEmptyEnv 121 11 (by decide) rfl

/-- Check environment for the fallback witness: one pid holding one X11
connection. -/
def witnessCheckEnv : CheckEnv where
  findPids := [101]
  syncResp := fun _ => (false, none)
  sys := exampleSys
  restartEnv := witnessRestartEnv
  now := 0

/-- Witness for C7: one connection against threshold 10 yields exactly the
status line. -/
theorem c7_fallback_logs_status_witness :
    (check_threshold witnessGuard witnessCheckEnv "fallback" none).2 =
      [Effect.logMsg (LogMsg.statusLine "qq" 1 10)] :=
  c7_fallback_logs_status witnessGuard witnessCheckEnv (by decide) (by decide)

/-- A watch table holding the single pair pid 101 with watch descriptor 1. -/
def oneWatch : WatchState := add_pid initWatch 101 true (some 1)

/-- C6 counterexample: two plain events (mask `IN_CREATE`) on the same watch
make `wait_for_events` report pid 101 twice — the returned list is not
deduplicated. -/
theorem c6_wait_dedup_claim_false :
    wait_for_events oneWatch PollOutcome.pollReady
      [RawEvent.mk 1 256, RawEvent.mk 1 256] =
      Except.ok (oneWatch, [101, 101]) ∧
    ¬ ([101, 101] : List Int).Nodup := by
  constructor
  · rfl
  · decide

/-- Removal can only erase entries: any surviving reverse-map binding was
already present. -/
theorem remove_pid_wd_lookup_le (s : WatchState) (pid : Int) (w q : Int)
    (h : (remove_pid s pid).wd_to_pid.lookup w = some q) :
    s.wd_to_pid.lookup w = some q := by
  unfold remove_pid at h
  cases hl : s.pid_to_wd.lookup pid with
  | none =>
      rw [hl] at h
      exact h
  | some wd =>
      rw [hl] at h
      have h2 : (s.wd_to_pid.erase wd).lookup w = some q := h
      by_cases hw : w = wd
      · subst hw
        rw [AList.lookup_erase] at h2
        exact absurd h2 (by simp)
      · rwa [AList.lookup_erase_ne hw] at h2

/-- Case analysis of `processEvent`: it either drops the event, reports the
watched pid, or evicts-and-reports it. -/
theorem processEvent_cases (s : WatchState) (acc : List Int) (e : RawEvent) :
    processEvent (s, acc) e = (s, acc) ∨
    ∃ pid, s.wd_to_pid.lookup e.wd = some pid ∧
      (processEvent (s, acc) e = (s, acc ++ [pid]) ∨
       processEvent (s, acc) e = (remove_pid s pid, acc ++ [pid])) := by
  cases hl : s.wd_to_pid.lookup e.wd with
  | none =>
      left
      simp only [processEvent, hl]
  | some pid =>
      right
      refine ⟨pid, rfl, ?_⟩
      by_cases hm : e.mask &&& (IN_DELETE_SELF ||| IN_MOVE_SELF) ≠ 0
      · right
        simp only [processEvent, hl]
        rw [if_pos hm]
      · left
        simp only [processEvent, hl]
        rw [if_neg hm]

/-- Every pid the event fold appends was bound in the initial reverse map to
a watch descriptor of one of the events. -/
theorem processFold_mem (st : WatchState) (evts : List RawEvent) :
    ∀ (s : WatchState) (acc : List Int),
      (∀ w q, s.wd_to_pid.lookup w = some q → st.wd_to_pid.lookup w = some q) →
      ∀ p ∈ (evts.foldl processEvent (s, acc)).2,
        p ∈ acc ∨ ∃ e ∈ evts, st.wd_to_pid.lookup e.wd = some p := by
  induction evts with
  | nil =>
      intro s acc _ p hp
      simp only [List.foldl_nil] at hp
      exact Or.inl hp
  | cons e rest ih =>
      intro s acc hsub p hp
      rw [List.foldl_cons] at hp
      rcases processEvent_cases s acc e with hc | ⟨pid, hl, hc | hc⟩
      · rw [hc] at hp
        rcases ih s acc hsub p hp with h | ⟨e2, he2, hq⟩
        · exact Or.inl h
        · exact Or.inr ⟨e2, List.mem_cons_of_mem e he2, hq⟩
      · rw [hc] at hp
        rcases ih s (acc ++ [pid]) hsub p hp with h | ⟨e2, he2, hq⟩
        · rcases List.mem_append.mp h with h2 | h2
          · exact Or.inl h2
          · have hpid : p = pid := by simpa using h2
            subst hpid
            exact Or.inr ⟨e, List.mem_cons_self e rest, hsub e.wd p hl⟩
        · exact Or.inr ⟨e2, List.mem_cons_of_mem e he2, hq⟩
      · rw [hc] at hp
        have hsub2 : ∀ w q, (remove_pid s pid).wd_to_pid.lookup w = some q →
            st.wd_to_pid.lookup w = some q :=
          fun w q hq => hsub w q (remove_pid_wd_lookup_le s pid w q hq)
        rcases ih (remove_pid s pid) (acc ++ [pid]) hsub2 p hp with h | ⟨e2, he2, hq⟩
        · rcases List.mem_append.mp h with h2 | h2
          · exact Or.inl h2
          · have hpid : p = pid := by simpa using h2
            subst hpid
            exact Or.inr ⟨e, List.mem_cons_self e rest, hsub e.wd p hl⟩
        · exact Or.inr ⟨e2, List.mem_cons_of_mem e he2, hq⟩

/-- C6 amended: on timeout expiry `wait_for_events` returns an empty list
(not an error); on notification the returned list reports, in event order,
the pid watched by each firing descriptor — possibly with repetitions, one
entry per event (the code does not deduplicate, as the counterexample
shows), and every reported pid was bound in the watch table when the wait
began. -/
theorem c6_wait_timeout_and_reported (st : WatchState) (poll : PollOutcome)
    (evts : List RawEvent) :
    (poll = PollOutcome.pollTimeout →
      wait_for_events st poll evts = Except.ok (st, [])) ∧
    (∀ st2 res, wait_for_events st PollOutcome.pollReady evts = Except.ok (st2, res) →
      ∀ p ∈ res, ∃ e ∈ evts, st.wd_to_pid.lookup e.wd = some p) := by
  constructor
  · intro h
    subst h
    rfl
  · intro st2 res h p hp
    have h2 : evts.foldl processEvent (st, []) = (st2, res) := by
      simpa [wait_for_events] using h
    have h3 := processFold_mem st evts st [] (fun w q hq => hq) p
      (by rw [h2]; exact hp)
    rcases h3 with h4 | h4
    · simp at h4
    · exact h4

/-- Witness for the amended C6: a timeout produces `ok ([], unchanged)`, and
a single plain event on watch descriptor 1 reports pid 101, which was indeed
watched. -/
theorem c6_wait_timeout_and_reported_witness :
    wait_for_events oneWatch PollOutcome.pollTimeout [] =
      Except.ok (oneWatch, []) ∧
    ∃ e ∈ [RawEvent.mk 1 256], oneWatch.wd_to_pid.lookup e.wd = some 101 := by
  constructor
  · exact (c6_wait_timeout_and_reported oneWatch PollOutcome.pollTimeout []).1 rfl
  · exact (c6_wait_timeout_and_reported oneWatch PollOutcome.pollReady
      [RawEvent.mk 1 256]).2 oneWatch [101] rfl 101 (by decide)

/-- The two watch maps are mutually inverse finite maps. -/
def WatchInv (st : WatchState) : Prop :=
  ∀ p w, st.pid_to_wd.lookup p = some w ↔ st.wd_to_pid.lookup w = some p

/-- The kernel response for one attempted add is fresh: a successful
`inotify_add_watch` returns a descriptor not currently active (which Linux
guarantees for live inotify watches). -/
def freshAdd (st : WatchState) (wdRes : Option Int) : Bool :=
  match wdRes with
  | none => true
  | some wd => decide (st.wd_to_pid.lookup wd = none)

/-- One externally triggered watch-table operation together with the OS
responses it consumes. -/
inductive WOp
  | add (pid : Int) (dirOk : Bool) (wdRes : Option Int)
  | remove (pid : Int)
  | sync (pids : List Int) (resp : Int → Bool × Option Int)
  | wait (evts : List RawEvent)

/-- Apply one operation to the watch table (for `wait`, only the state
component matters here). -/
def applyWOp (st : WatchState) : WOp → WatchState
  | WOp.add pid dirOk wdRes => add_pid st pid dirOk wdRes
  | WOp.remove pid => remove_pid st pid
  | WOp.sync pids resp => sync_pids st pids resp
  | WOp.wait evts => (evts.foldl processEvent (st, [])).1

/-- Apply a whole operation sequence. -/
def applyWOps (st : WatchState) (ops : List WOp) : WatchState :=
  ops.foldl applyWOp st

/-- Kernel-freshness of the responses consumed by one operation: every
successful add returns a descriptor unused at call time, and distinct added
pids receive distinct descriptors. -/
def freshWOp (st : WatchState) : WOp → Bool
  | WOp.add _ _ wdRes => freshAdd st wdRes
  | WOp.remove _ => true
  | WOp.sync pids resp =>
      ((syncAdds st pids).all fun p => freshAdd st (resp p).2) &&
      ((syncAdds st pids).all fun p => (syncAdds st pids).all fun q =>
        decide (((resp p).2).isSome = true → (resp p).2 = (resp q).2 → p = q))
  | WOp.wait _ => true

/-- Kernel-freshness along a whole trace. -/
def freshTrace (st : WatchState) : List WOp → Bool
  | [] => true
  | op :: rest => freshWOp st op && freshTrace (applyWOp st op) rest

/-- Adding preserves the mutual-inverse invariant when the new descriptor is
fresh. -/
theorem watchInv_add (st : WatchState) (pid : Int) (dirOk : Bool)
    (wdRes : Option Int) (hinv : WatchInv st)
    (hfresh : freshAdd st wdRes = true) :
    WatchInv (add_pid st pid dirOk wdRes) := by
  unfold add_pid
  by_cases hp : (st.pid_to_wd.lookup pid).isSome
  · rw [if_pos hp]
    exact hinv
  · rw [if_neg hp]
    have hpid : st.pid_to_wd.lookup pid = none :=
      Option.not_isSome_iff_eq_none.mp hp
    cases dirOk with
    | false => exact hinv
    | true =>
        cases wdRes with
        | none => exact hinv
        | some wd =>
            have hwd : st.wd_to_pid.lookup wd = none := by
              simpa [freshAdd] using hfresh
            intro p w
            show (st.pid_to_wd.insert pid wd).lookup p = some w ↔
              (st.wd_to_pid.insert wd pid).lookup w = some p
            by_cases hpp : p = pid
            · subst hpp
              rw [AList.lookup_insert]
              by_cases hww : w = wd
              · subst hww
                rw [AList.lookup_insert]
                simp
              · rw [AList.lookup_insert_ne hww]
                constructor
                · intro h
                  exact absurd (Option.some.inj h).symm hww
                · intro h
                  have h2 := (hinv p w).2 h
                  rw [hpid] at h2
                  exact absurd h2 (by simp)
            · rw [AList.lookup_insert_ne hpp]
              by_cases hww : w = wd
              · subst hww
                rw [AList.lookup_insert]
                constructor
                · intro h
                  have h2 := (hinv p w).1 h
                  rw [hwd] at h2
                  exact absurd h2 (by simp)
                · intro h
                  exact absurd (Option.some.inj h).symm hpp
              · rw [AList.lookup_insert_ne hww]
                exact hinv p w

/-- Removing preserves the mutual-inverse invariant. -/
theorem watchInv_remove (st : WatchState) (pid : Int) (hinv : WatchInv st) :
    WatchInv (remove_pid st pid) := by
  unfold remove_pid
  cases hl : st.pid_to_wd.lookup pid with
  | none => exact hinv
  | some wd =>
      have hwd : st.wd_to_pid.lookup wd = some pid := (hinv pid wd).1 hl
      intro p w
      show (st.pid_to_wd.erase pid).lookup p = some w ↔
        (st.wd_to_pid.erase wd).lookup w = some p
      by_cases hpp : p = pid
      · subst hpp
        rw [AList.lookup_erase]
        by_cases hww : w = wd
        · subst hww
          rw [AList.lookup_erase]
          simp
        · rw [AList.lookup_erase_ne hww]
          constructor
          · intro h
            exact absurd h (by simp)
          · intro h
            have h2 := (hinv p w).2 h
            rw [hl] at h2
            exact absurd (Option.some.inj h2).symm hww
      · rw [AList.lookup_erase_ne hpp]
        by_cases hww : w = wd
        · subst hww
          rw [AList.lookup_erase]
          constructor
          · intro h
            have h2 := (hinv p w).1 h
            rw [hwd] at h2
            exact absurd (Option.some.inj h2).symm hpp
          · intro h
            exact absurd h (by simp)
        · rw [AList.lookup_erase_ne hww]
          exact hinv p w

/-- The removal phase of `sync_pids` preserves the invariant. -/
theorem watchInv_removeFold (l : List Int) :
    ∀ st : WatchState, WatchInv st → WatchInv (l.foldl remove_pid st) := by
  induction l with
  | nil => intro st h; exact h
  | cons p rest ih =>
      intro st h
      rw [List.foldl_cons]
      exact ih (remove_pid st p) (watchInv_remove st p h)

/-- Removal never introduces a reverse-map binding. -/
theorem remove_pid_wd_none (st : WatchState) (pid w : Int)
    (hw : st.wd_to_pid.lookup w = none) :
    (remove_pid st pid).wd_to_pid.lookup w = none := by
  cases h : (remove_pid st pid).wd_to_pid.lookup w with
  | none => rfl
  | some q =>
      have := remove_pid_wd_lookup_le st pid w q h
      rw [hw] at this
      exact absurd this (by simp)

/-- Neither does the whole removal phase. -/
theorem removeFold_wd_none (l : List Int) :
    ∀ (st : WatchState) (w : Int), st.wd_to_pid.lookup w = none →
      (l.foldl remove_pid st).wd_to_pid.lookup w = none := by
  induction l with
  | nil => intro st w h; exact h
  | cons p rest ih =>
      intro st w h
      rw [List.foldl_cons]
      exact ih (remove_pid st p) w (remove_pid_wd_none st p w h)

/-- An add keeps a reverse-map slot empty when it is not the inserted one. -/
theorem add_pid_wd_none (st : WatchState) (pid : Int) (dirOk : Bool)
    (wdRes : Option Int) (w : Int) (hw : st.wd_to_pid.lookup w = none)
    (hne : ∀ wd, wdRes = some wd → w ≠ wd) :
    (add_pid st pid dirOk wdRes).wd_to_pid.lookup w = none := by
  unfold add_pid
  by_cases hp : (st.pid_to_wd.lookup pid).isSome
  · rw [if_pos hp]
    exact hw
  · rw [if_neg hp]
    cases dirOk with
    | false => exact hw
    | true =>
        cases wdRes with
        | none => exact hw
        | some wd =>
            show (st.wd_to_pid.insert wd pid).lookup w = none
            rw [AList.lookup_insert_ne (hne wd rfl)]
            exact hw

/-- The add phase of `sync_pids` preserves the invariant when the supplied
descriptors are fresh and pairwise distinct. -/
theorem watchInv_addFold (resp : Int → Bool × Option Int) :
    ∀ (l : List Int) (st : WatchState), WatchInv st → l.Nodup →
      (∀ p ∈ l, ∀ wd, (resp p).2 = some wd → st.wd_to_pid.lookup wd = none) →
      (∀ p ∈ l, ∀ q ∈ l, ((resp p).2).isSome = true →
        (resp p).2 = (resp q).2 → p = q) →
      WatchInv (l.foldl (fun s p => add_pid s p (resp p).1 (resp p).2) st) := by
  intro l
  induction l with
  | nil => intro st hinv _ _ _; exact hinv
  | cons p rest ih =>
      intro st hinv hnodup hfresh hinj
      rw [List.foldl_cons]
      apply ih
      · apply watchInv_add st p (resp p).1 (resp p).2 hinv
        cases hr : (resp p).2 with
        | none => simp [freshAdd]
        | some wd =>
            have := hfresh p (List.mem_cons_self p rest) wd hr
            simp [freshAdd, this]
      · exact (List.nodup_cons.mp hnodup).2
      · intro q hq wd hwd
        apply add_pid_wd_none st p (resp p).1 (resp p).2 wd
          (hfresh q (List.mem_cons_of_mem p hq) wd hwd)
        intro wd2 hwd2 heq
        have hpq : (resp p).2 = (resp q).2 := by
          rw [hwd2, hwd, heq]
        have := hinj p (List.mem_cons_self p rest) q (List.mem_cons_of_mem p hq)
          (by rw [hwd2]; rfl) hpq
        subst this
        exact (List.nodup_cons.mp hnodup).1 hq
      · intro a ha b hb
        exact hinj a (List.mem_cons_of_mem p ha) b (List.mem_cons_of_mem p hb)

/-- `sync_pids` preserves the invariant under fresh responses. -/
theorem watchInv_sync (st : WatchState) (pids : List Int)
    (resp : Int → Bool × Option Int) (hinv : WatchInv st)
    (hfresh : ∀ p ∈ syncAdds st pids, freshAdd st (resp p).2 = true)
    (hinj : ∀ p ∈ syncAdds st pids, ∀ q ∈ syncAdds st pids,
      ((resp p).2).isSome = true → (resp p).2 = (resp q).2 → p = q) :
    WatchInv (sync_pids st pids resp) := by
  unfold sync_pids
  apply watchInv_addFold
  · exact watchInv_removeFold _ st hinv
  · exact List.Nodup.filter _ (List.nodup_dedup pids)
  · intro p hp wd hwd
    have h1 := hfresh p hp
    rw [hwd] at h1
    have h0 : st.wd_to_pid.lookup wd = none := by
      simpa [freshAdd] using h1
    exact removeFold_wd_none _ st wd h0
  · exact hinj

/-- The event-processing fold of `wait_for_events` preserves the
invariant. -/
theorem watchInv_waitFold (evts : List RawEvent) :
    ∀ (s : WatchState) (acc : List Int), WatchInv s →
      WatchInv (evts.foldl processEvent (s, acc)).1 := by
  induction evts with
  | nil => intro s acc h; exact h
  | cons e rest ih =>
      intro s acc h
      rw [List.foldl_cons]
      rcases processEvent_cases s acc e with hc | ⟨pid, _, hc | hc⟩
      · rw [hc]; exact ih s acc h
      · rw [hc]; exact ih s (acc ++ [pid]) h
      · rw [hc]; exact ih (remove_pid s pid) (acc ++ [pid]) (watchInv_remove s pid h)

/-- The invariant is preserved along any fresh trace. -/
theorem watchInv_trace : ∀ (ops : List WOp) (st : WatchState),
    WatchInv st → freshTrace st ops = true → WatchInv (applyWOps st ops) := by
  intro ops
  induction ops with
  | nil => intro st h _; exact h
  | cons op rest ih =>
      intro st h hf
      have hf2 : freshWOp st op = true ∧ freshTrace (applyWOp st op) rest = true := by
        simpa [freshTrace, Bool.and_eq_true] using hf
      show WatchInv (applyWOps (applyWOp st op) rest)
      apply ih
      · cases op with
        | add pid dirOk wdRes => exact watchInv_add st pid dirOk wdRes h hf2.1
        | remove pid => exact watchInv_remove st pid h
        | sync pids resp =>
            have hsp : ((syncAdds st pids).all fun p => freshAdd st (resp p).2) = true ∧
                ((syncAdds st pids).all fun p => (syncAdds st pids).all fun q =>
                  decide (((resp p).2).isSome = true → (resp p).2 = (resp q).2 → p = q))
                  = true := by
              simpa [freshWOp, Bool.and_eq_true] using hf2.1
            apply watchInv_sync st pids resp h
            · intro p hp
              exact List.all_eq_true.mp hsp.1 p hp
            · intro p hp q hq hs he
              have h2 := List.all_eq_true.mp (List.all_eq_true.mp hsp.2 p hp) q hq
              exact of_decide_eq_true h2 hs he
        | wait evts => exact watchInv_waitFold evts st [] h
      · exact hf2.2

/-- C9: starting from a fresh `InotifyWatch`, any sequence of add, remove,
sync and wait operations — under the kernel guarantee that a successful
`inotify_add_watch` returns a descriptor not currently active — keeps
`pid_to_wd` and `wd_to_pid` mutually inverse: `pid_to_wd` maps `p` to `w`
iff `wd_to_pid` maps `w` to `p` (hence every pid holds at most one watch
descriptor), including across the self-removal eviction inside
`wait_for_events`. -/
theorem c9_watch_maps_mutual_inverse (ops : List WOp)
    (hfresh : freshTrace initWatch ops = true) :
    WatchInv (applyWOps initWatch ops) :=
  watchInv_trace ops initWatch (fun p w => by simp [initWatch]) hfresh

/-- Operation trace for the C9 witness: add a watch, resync to two pids (one
add failing on one call path), a self-removal event, then a removal. -/
def witnessOps : List WOp :=
  [WOp.add 101 true (some 1),
   WOp.sync [101, 102] (fun p => (true, if p = 102 then some 2 else none)),
   WOp.wait [RawEvent.mk 1 1024],
   WOp.remove 102]

/-- Witness for C9 on a concrete four-operation trace. -/
theorem c9_watch_maps_mutual_inverse_witness :
    freshTrace initWatch witnessOps = true ∧
    WatchInv (applyWOps initWatch witnessOps) :=
  ⟨by decide, c9_watch_maps_mutual_inverse witnessOps (by decide)⟩

/-- Number of `inotify_rm_watch` syscalls recorded in a trace. -/
def rmCount (l : List WatchOp) : Nat :=
  l.countP fun o => match o with | WatchOp.rmCall _ => true | _ => false

/-- Forward-map membership after a removal. -/
theorem remove_pid_pid_mem (st : WatchState) (p q : Int) :
    q ∈ (remove_pid st p).pid_to_wd ↔ q ≠ p ∧ q ∈ st.pid_to_wd := by
  unfold remove_pid
  cases hl : st.pid_to_wd.lookup p with
  | none =>
      show q ∈ st.pid_to_wd ↔ _
      constructor
      · intro h
        refine ⟨?_, h⟩
        rintro rfl
        exact (AList.lookup_eq_none.mp hl) h
      · exact fun h => h.2
  | some wd =>
      show q ∈ st.pid_to_wd.erase p ↔ _
      exact AList.mem_erase

/-- Forward-map membership after the whole removal phase. -/
theorem removeFold_pid_mem (l : List Int) :
    ∀ (st : WatchState) (q : Int),
      q ∈ (l.foldl remove_pid st).pid_to_wd ↔ q ∉ l ∧ q ∈ st.pid_to_wd := by
  induction l with
  | nil =>
      intro st q
      simp
  | cons p rest ih =>
      intro st q
      rw [List.foldl_cons, ih, remove_pid_pid_mem]
      simp only [List.mem_cons, not_or]
      tauto

/-- An add introduces at most the added pid into the forward map. -/
theorem add_pid_pid_mem_le (st : WatchState) (p : Int) (dirOk : Bool)
    (wdRes : Option Int) (q : Int)
    (h : q ∈ (add_pid st p dirOk wdRes).pid_to_wd) :
    q = p ∨ q ∈ st.pid_to_wd := by
  unfold add_pid at h
  by_cases hp : (st.pid_to_wd.lookup p).isSome
  · rw [if_pos hp] at h
    exact Or.inr h
  · rw [if_neg hp] at h
    cases dirOk with
    | false => exact Or.inr h
    | true =>
        cases wdRes with
        | none => exact Or.inr h
        | some wd =>
            have h2 : q ∈ st.pid_to_wd.insert p wd := h
            exact (AList.mem_insert st.pid_to_wd).mp h2

/-- The add phase introduces at most the listed pids. -/
theorem addFold_pid_mem_le (resp : Int → Bool × Option Int) (l : List Int) :
    ∀ (st : WatchState) (q : Int),
      q ∈ (l.foldl (fun s p => add_pid s p (resp p).1 (resp p).2) st).pid_to_wd →
      q ∈ l ∨ q ∈ st.pid_to_wd := by
  induction l with
  | nil =>
      intro st q h
      exact Or.inr h
  | cons p rest ih =>
      intro st q h
      rw [List.foldl_cons] at h
      rcases ih (add_pid st p (resp p).1 (resp p).2) q h with h2 | h2
      · exact Or.inl (List.mem_cons_of_mem p h2)
      · rcases add_pid_pid_mem_le st p (resp p).1 (resp p).2 q h2 with h3 | h3
        · exact Or.inl (h3 ▸ List.mem_cons_self p rest)
        · exact Or.inr h3

/-- After a `sync_pids`, every watched pid is in the synced list. -/
theorem sync_pid_mem_le (st : WatchState) (pids : List Int)
    (resp : Int → Bool × Option Int) (q : Int)
    (h : q ∈ (sync_pids st pids resp).pid_to_wd) : q ∈ pids := by
  unfold sync_pids at h
  rcases addFold_pid_mem_le resp (syncAdds st pids) _ q h with h1 | h1
  · unfold syncAdds at h1
    exact List.mem_dedup.mp (List.mem_filter.mp h1).1
  · rw [removeFold_pid_mem] at h1
    by_cases hqp : q ∈ pids
    · exact hqp
    · exfalso
      apply h1.1
      unfold syncRemovals
      refine List.mem_filter.mpr ⟨AList.mem_keys.mp h1.2, ?_⟩
      exact decide_eq_true hqp

/-- A second `sync_pids` with the same list finds nothing to remove. -/
theorem sync_twice_removals_nil (st : WatchState) (pids : List Int)
    (resp : Int → Bool × Option Int) :
    syncRemovals (sync_pids st pids resp) pids = [] := by
  unfold syncRemovals
  rw [List.filter_eq_nil_iff]
  intro q hq
  have hmem : q ∈ (sync_pids st pids resp).pid_to_wd := AList.mem_keys.mpr hq
  have := sync_pid_mem_le st pids resp q hmem
  simp [this]

/-- Adds never record removal syscalls. -/
theorem add_pid_rmCount (st : WatchState) (p : Int) (dirOk : Bool)
    (wdRes : Option Int) :
    rmCount (add_pid st p dirOk wdRes).ops = rmCount st.ops := by
  unfold add_pid
  by_cases hp : (st.pid_to_wd.lookup p).isSome
  · rw [if_pos hp]
  · rw [if_neg hp]
    cases dirOk with
    | false => rfl
    | true =>
        cases wdRes with
        | none =>
            show rmCount (st.ops ++ [WatchOp.addCall p]) = rmCount st.ops
            simp [rmCount, List.countP_append]
        | some wd =>
            show rmCount (st.ops ++ [WatchOp.addCall p]) = rmCount st.ops
            simp [rmCount, List.countP_append]

/-- Neither does a whole add phase. -/
theorem addFold_rmCount (resp : Int → Bool × Option Int) (l : List Int) :
    ∀ st : WatchState,
      rmCount ((l.foldl (fun s p => add_pid s p (resp p).1 (resp p).2) st)).ops =
        rmCount st.ops := by
  induction l with
  | nil => intro st; rfl
  | cons p rest ih =>
      intro st
      rw [List.foldl_cons, ih, add_pid_rmCount]

/-- C10 counterexample setup: directory present but `inotify_add_watch`
fails. -/
def respFail : Int → Bool × Option Int := fun _ => (true, none)

/-- C10 counterexample: pid 5's add fails, so the immediately repeated
`sync_pids [5]` re-issues the `inotify_add_watch` syscall — the second call
does perform an additional watch-add operation. -/
theorem c10_sync_idempotent_claim_false :
    (sync_pids (sync_pids initWatch [5] respFail) [5] respFail).ops ≠
      (sync_pids initWatch [5] respFail).ops := by
  decide

/-- C10 amended: re-adding an already-watched pid is a no-op; an immediate
second `sync_pids` with the same pid list never performs watch-remove
syscalls; and provided every pid of the list actually entered the table in
the first call (no add failed), the second call performs no watch syscalls
at all and leaves the watch state unchanged.  (When an add failed — missing
directory or kernel error — the second call retries it, as the
counterexample shows.) -/
theorem c10_sync_idempotent_amended (st : WatchState) (pids : List Int)
    (resp resp2 : Int → Bool × Option Int) :
    (∀ p dirOk wdRes, (st.pid_to_wd.lookup p).isSome = true →
      add_pid st p dirOk wdRes = st) ∧
    rmCount (sync_pids (sync_pids st pids resp) pids resp2).ops =
      rmCount (sync_pids st pids resp).ops ∧
    ((∀ p ∈ pids, p ∈ (sync_pids st pids resp).pid_to_wd) →
      sync_pids (sync_pids st pids resp) pids resp2 = sync_pids st pids resp) := by
  refine ⟨?_, ?_, ?_⟩
  · intro p dirOk wdRes h
    unfold add_pid
    rw [if_pos h]
  · have hrem := sync_twice_removals_nil st pids resp
    conv_lhs => rw [sync_pids]
    rw [hrem]
    simp only [List.foldl_nil]
    exact addFold_rmCount resp2 (syncAdds (sync_pids st pids resp) pids) _
  · intro hall
    have hrem := sync_twice_removals_nil st pids resp
    have hadd : syncAdds (sync_pids st pids resp) pids = [] := by
      unfold syncAdds
      rw [List.filter_eq_nil_iff]
      intro q hq
      have hq2 : q ∈ pids := List.mem_dedup.mp hq
      have := AList.mem_keys.mp (hall q hq2)
      simp [this]
    conv_lhs => rw [sync_pids]
    rw [hrem, hadd]
    simp only [List.foldl_nil]

/-- Responses used by the C10 witness: every add succeeds with descriptor
7. -/
def respOk : Int → Bool × Option Int := fun _ => (true, some 7)

/-- Witness for the amended C10: after a fully successful `sync_pids [101]`,
re-adding 101 is a no-op and a repeated sync (even with different responses)
leaves the state — table and syscall trace — unchanged. -/
theorem c10_sync_idempotent_amended_witness :
    add_pid (sync_pids initWatch [101] respOk) 101 true (some 9) =
      sync_pids initWatch [101] respOk ∧
    sync_pids (sync_pids initWatch [101] respOk) [101] respFail =
      sync_pids initWatch [101] respOk := by
  constructor
  · exact (c10_sync_idempotent_amended (sync_pids initWatch [101] respOk)
      [101] respOk respFail).1 101 true (some 9) (by decide)
  · exact (c10_sync_idempotent_amended initWatch [101] respOk respFail).2.2
      (by decide)

end X11Guard
